import Mathlib

/-!
# The `ocr` video filter (`libavfilter/vf_ocr.c`)

A shallow embedding of the region clamp `check_fix`, of `config_input`, and of `filter_frame`,
followed by the properties established about them.

C `int` values are mathematical integers; the result of an `int` addition or subtraction is
reduced into the signed 32-bit range by `wrap32`.
-/

namespace VfOcr

/-! ## Machine integers -/

/-- Largest value of a C `int`. -/
def INT_MAX : Int := 2147483647

/-- Smallest value of a C `int`. -/
def INT_MIN : Int := -2147483648

/-- The value stored for a C `int` expression whose mathematical result is `n`:
`n` reduced modulo `2^32` into the signed range. -/
def wrap32 (n : Int) : Int := (n + 2147483648) % 4294967296 - 2147483648

/-- Membership in the range of a C `int`. -/
def IsInt32 (n : Int) : Prop := INT_MIN ≤ n ∧ n ≤ INT_MAX

instance (n : Int) : Decidable (IsInt32 n) := by
  unfold IsInt32; infer_instance

/-! ## Region clamp -/

/-- The four `int` cells `*x, *y, *w, *h` that `check_fix` reads and writes. -/
structure Region where
  x : Int
  y : Int
  w : Int
  h : Int
deriving DecidableEq

/-- Body of `check_fix` (vf_ocr.c:102-115), with the arithmetic of `int` given by `norm`,
the map from the mathematical result of `+` or `-` to the value the machine holds. -/
def check_fix_with (norm : Int → Int) (r : Region) (pic_w pic_h : Int) : Region :=
  -- if (*x >= pic_w) *x = 0;
  let x := if r.x ≥ pic_w then 0 else r.x
  -- if (*y >= pic_h) *y = 0;
  let y := if r.y ≥ pic_h then 0 else r.y
  -- if (*w == 0 || *w + *x > pic_w) *w = pic_w - *x;
  let w := if r.w = 0 ∨ norm (r.w + x) > pic_w then norm (pic_w - x) else r.w
  -- if (*h == 0 || *h + *y > pic_h) *h = pic_h - *y;
  let h := if r.h = 0 ∨ norm (r.h + y) > pic_h then norm (pic_h - y) else r.h
  { x := x, y := y, w := w, h := h }

/-- The function `check_fix` as compiled: 32-bit two's complement `int` arithmetic. -/
def check_fix (r : Region) (pic_w pic_h : Int) : Region :=
  check_fix_with wrap32 r pic_w pic_h

/-- The function `check_fix` read over the mathematical integers (no wrap-around). -/
def check_fix_math (r : Region) (pic_w pic_h : Int) : Region :=
  check_fix_with id r pic_w pic_h

/-- The region invariant of the resolved region against a frame of size `pic_w × pic_h`. -/
def RegionInvariant (r : Region) (pic_w pic_h : Int) : Prop :=
  0 ≤ r.x ∧ r.x < pic_w ∧ 0 ≤ r.y ∧ r.y < pic_h ∧ 0 < r.w ∧ 0 < r.h ∧
    r.x + r.w ≤ pic_w ∧ r.y + r.h ≤ pic_h

instance (r : Region) (pic_w pic_h : Int) : Decidable (RegionInvariant r pic_w pic_h) := by
  unfold RegionInvariant; infer_instance

/-! ## Filter state and configuration -/

/-- The private context `OCRContext` (vf_ocr.c:29-40). The option strings and the two regions are
kept as they are; `tess` is the engine handle, its state being a value of type `σ`. -/
structure OCRContext (σ : Type) where
  datapath : Option String
  language : String
  whitelist : String
  blacklist : String
  x : Int
  y : Int
  x_in : Int
  y_in : Int
  w : Int
  h : Int
  w_in : Int
  h_in : Int
  tess : σ
deriving DecidableEq

/-- Decimal text of an `int`, what the conversion `%d` prints. -/
def fmt_d (n : Int) : String := toString n

/-- One line handed to `av_log`: the level and the formatted text. -/
structure LogLine where
  level : Int
  msg : String
deriving DecidableEq

/-- Modelled from the spec: the level constant `AV_LOG_WARNING` of libavutil's log.h, which is
not among the sources; the spec only says that the message is a non-fatal warning. -/
def AV_LOG_WARNING : Int := 24

/-- The warning text of `config_input` (vf_ocr.c:129-131). -/
def subregion_changed_msg (x_in y_in w_in h_in : Int) : String :=
  "config error, subregion changed to x=" ++ fmt_d x_in ++ ", y=" ++ fmt_d y_in ++
    ", w=" ++ fmt_d w_in ++ ", h=" ++ fmt_d h_in ++ "\n"

/-- What a call of `config_input` leaves behind: the context, the lines logged, the return value. -/
structure ConfigResult (σ : Type) where
  ctx : OCRContext σ
  log : List LogLine
  ret : Int

/-- The function `config_input` (vf_ocr.c:117-135); `inlink_w`, `inlink_h` are `inlink->w`,
`inlink->h`. -/
def config_input {σ : Type} (s : OCRContext σ) (inlink_w inlink_h : Int) : ConfigResult σ :=
  -- s->x_in = s->x; ... ; check_fix(&s->x_in, &s->y_in, &s->w_in, &s->h_in, inlink->w, inlink->h);
  let r := check_fix { x := s.x, y := s.y, w := s.w, h := s.h } inlink_w inlink_h
  let s1 : OCRContext σ := { s with x_in := r.x, y_in := r.y, w_in := r.w, h_in := r.h }
  let log :=
    if s1.x_in ≠ s1.x ∨ s1.y_in ≠ s1.y ∨
        (s1.w ≠ 0 ∧ s1.w_in ≠ s1.w) ∨ (s1.h ≠ 0 ∧ s1.h_in ≠ s1.h) then
      [{ level := AV_LOG_WARNING,
         msg := subregion_changed_msg s1.x_in s1.y_in s1.w_in s1.h_in : LogLine }]
    else []
  -- return 0;
  { ctx := s1, log := log, ret := 0 }

/-- Whether `config_input` logged a warning. -/
def warned {σ : Type} (res : ConfigResult σ) : Bool :=
  res.log.any (fun l => l.level == AV_LOG_WARNING)

/-! ## Frame metadata -/

/-- Modelled from the spec: the metadata store `AVDictionary` of libavutil, which is not among the
sources: "keys map to string values". It is kept as the list of its entries. -/
abbrev AVDictionary := List (String × String)

/-- Modelled from the spec: the flag `AV_DICT_APPEND` of libavutil's dict.h, which is not among
the sources; it selects the "append (not overwrite) semantics". -/
def AV_DICT_APPEND : Nat := 32

/-- Modelled from the spec: the lookup `av_dict_get` of libavutil, which is not among the sources:
the value a key maps to, if the key is present. -/
def av_dict_get (m : AVDictionary) (key : String) : Option String :=
  (m.find? (fun e => e.1 == key)).map (fun e => e.2)

/-- Modelled from the spec: the function `av_dict_set` of libavutil, which is not among the
sources. With flags `0` the value overwrites any prior value of the key; with `AV_DICT_APPEND` it
is appended to the prior value of the key (and is the value when the key is new). The spec is
silent on a `NULL` value (here `none`); it follows the libavutil interface, where a `NULL` value
deletes the entry of the key and adds none. -/
def av_dict_set (m : AVDictionary) (key : String) (value : Option String) (flags : Nat) :
    AVDictionary :=
  let others := m.filter (fun e => !(e.1 == key))
  match value with
  | none => others
  | some v =>
    let newval :=
      if flags &&& AV_DICT_APPEND ≠ 0 then
        match av_dict_get m key with
        | some oldval => oldval ++ v
        | none => v
      else v
    others ++ [(key, newval)]

/-- The frame `AVFrame`, as far as the filter sees it: the planes of 8-bit samples, their line
sizes, and the metadata. -/
structure AVFrame where
  data : List (List Nat)
  linesize : List Int
  metadata : AVDictionary
deriving DecidableEq

/-! ## The recognition engine -/

/-- The two engine calls that `filter_frame` makes, on a handle whose state has type `σ`.
`Rect` is `TessBaseAPIRect` (image data, bytes per pixel, bytes per line, left, top, width,
height): it gives the text, `none` for `NULL`, and the next state of the handle.
`AllWordConfidences` is `TessBaseAPIAllWordConfidences`: the `int` array it returns. -/
structure TessBaseAPI (σ : Type) where
  Rect : σ → List Nat → Int → Int → Int → Int → Int → Int → Option String × σ
  AllWordConfidences : σ → List Int

/-! ## Per-frame processing -/

/-- The loop of `filter_frame` (vf_ocr.c:151-156) over the array `confs`, from the element at the
head on. Reading past the end of the array has no defined result: `none`. -/
def confs_loop : List Int → AVDictionary → Option AVDictionary
  | [], _ => none
  | c :: rest, metadata =>
    -- confs[i] != -1
    if c = -1 then some metadata
    else
      -- snprintf(number, sizeof(number), "%d ", confs[i]);
      let number := fmt_d c ++ " "
      confs_loop rest (av_dict_set metadata "lavfi.ocr.confidence" (some number) AV_DICT_APPEND)

/-- What a call of `filter_frame` leaves behind: the context and the frame passed to
`ff_filter_frame`, that is to the next stage. -/
structure FilterResult (σ : Type) where
  ctx : OCRContext σ
  out : AVFrame

/-- The function `filter_frame` (vf_ocr.c:137-162). -/
def filter_frame {σ : Type} (api : TessBaseAPI σ) (s : OCRContext σ) (frame : AVFrame) :
    Option (FilterResult σ) :=
  -- result = TessBaseAPIRect(s->tess, in->data[0], 1, in->linesize[0], s->x_in, ...);
  let r := api.Rect s.tess (frame.data.headD []) 1 (frame.linesize.headD 0)
    s.x_in s.y_in s.w_in s.h_in
  let result := r.1
  -- confs = TessBaseAPIAllWordConfidences(s->tess);
  let confs := api.AllWordConfidences r.2
  -- av_dict_set(metadata, "lavfi.ocr.text", result, 0);
  let metadata := av_dict_set frame.metadata "lavfi.ocr.text" result 0
  match confs_loop confs metadata with
  | none => none
  | some metadata1 =>
    -- return ff_filter_frame(outlink, in);
    some { ctx := { s with tess := r.2 }, out := { frame with metadata := metadata1 } }

/-- The text the engine returns for `frame` from the state `s.tess`. -/
def engine_text {σ : Type} (api : TessBaseAPI σ) (s : OCRContext σ) (frame : AVFrame) :
    Option String :=
  (api.Rect s.tess (frame.data.headD []) 1 (frame.linesize.headD 0)
    s.x_in s.y_in s.w_in s.h_in).1

/-- The confidence array the engine returns after recognising `frame` from the state `s.tess`. -/
def engine_confs {σ : Type} (api : TessBaseAPI σ) (s : OCRContext σ) (frame : AVFrame) :
    List Int :=
  api.AllWordConfidences (api.Rect s.tess (frame.data.headD []) 1 (frame.linesize.headD 0)
    s.x_in s.y_in s.w_in s.h_in).2

/-- An engine that ignores the image: it returns `text` and then the array `confs`. -/
def scripted (text : Option String) (confs : List Int) : TessBaseAPI Unit where
  Rect := fun _ _ _ _ _ _ _ _ => (text, ())
  AllWordConfidences := fun _ => confs

/-- A context with the default options (vf_ocr.c:46-53), before `config_input`. -/
def default_ctx : OCRContext Unit where
  datapath := none
  language := "eng"
  whitelist := "0123456789abcdefghijklmnopqrstuvwxyzABCDEFGHIJKLMNOPQRSTUVWXYZ.:;,-+_!?\"'[]\x7b\x7d()<>|/\\=*&%$#@!~ "
  blacklist := ""
  x := 0
  y := 0
  x_in := 0
  y_in := 0
  w := 0
  h := 0
  w_in := 0
  h_in := 0
  tess := ()

/-- The text expected under `lavfi.ocr.confidence` for the confidences `cs`: the decimal text of
each value, in order, each followed by one space. -/
def confidence_text : List Int → String
  | [] => ""
  | c :: cs => (fmt_d c ++ " ") ++ confidence_text cs

/-- The fields of a text in which every field is closed by one space. -/
def space_fields : List Char → List (List Char)
  | [] => []
  | ch :: rest =>
    if ch = ' ' then [] :: space_fields rest
    else
      match space_fields rest with
      | [] => [[ch]]
      | f :: fs => (ch :: f) :: fs

/-- The entries of a dictionary under keys other than the two keys the filter writes. -/
def other_entries (m : AVDictionary) : AVDictionary :=
  m.filter (fun e => !(e.1 == "lavfi.ocr.text") && !(e.1 == "lavfi.ocr.confidence"))

/-- A one-plane 2x2 gray frame with no metadata. -/
def blank_frame : AVFrame where
  data := [[16, 16, 235, 235]]
  linesize := [2]
  metadata := []

/-- A frame that already carries metadata: a title, an old text and an old confidence value. -/
def tagged_frame : AVFrame where
  data := [[16, 16, 235, 235]]
  linesize := [2]
  metadata := [("title", "clip"), ("lavfi.ocr.text", "OLD"), ("lavfi.ocr.confidence", "70 ")]

/-- The value under `key` in the frame that `filter_frame` passes on, when it returns. -/
def out_value {σ : Type} (res : Option (FilterResult σ)) (key : String) :
    Option (Option String) :=
  res.map (fun r => av_dict_get r.out.metadata key)

/-! ## Basic facts on `wrap32` -/

theorem wrap32_of_isInt32 {n : Int} (h : IsInt32 n) : wrap32 n = n := by
  unfold IsInt32 INT_MIN INT_MAX at h
  unfold wrap32
  omega

theorem wrap32_sub_add (a b : Int) : wrap32 (wrap32 (a - b) + b) = wrap32 a := by
  unfold wrap32
  omega

/-! ## Properties of `check_fix` -/

/-- Over the mathematical integers a non-negative request on a non-empty frame is resolved to a
region inside the frame. -/
theorem region_invariant_math_aux (r : Region) (pic_w pic_h : Int)
    (hx : 0 ≤ r.x) (hy : 0 ≤ r.y) (hw : 0 ≤ r.w) (hh : 0 ≤ r.h)
    (hpw : 0 < pic_w) (hph : 0 < pic_h) :
    RegionInvariant (check_fix_math r pic_w pic_h) pic_w pic_h := by
  unfold RegionInvariant check_fix_math check_fix_with
  simp only [id]
  refine ⟨?_, ?_, ?_, ?_, ?_, ?_, ?_, ?_⟩ <;> (repeat' split) <;> omega

/-- C1. Over the mathematical integers, for a request with `x, y, w, h ≥ 0` and a frame with
`pic_w > 0` and `pic_h > 0`, the region produced by `check_fix` satisfies
`0 ≤ x' < pic_w`, `0 ≤ y' < pic_h`, `w' > 0`, `h' > 0`, `x' + w' ≤ pic_w`, `y' + h' ≤ pic_h`. -/
theorem check_fix_math_region_invariant (r : Region) (pic_w pic_h : Int)
    (hx : 0 ≤ r.x) (hy : 0 ≤ r.y) (hw : 0 ≤ r.w) (hh : 0 ≤ r.h)
    (hpw : 0 < pic_w) (hph : 0 < pic_h) :
    0 ≤ (check_fix_math r pic_w pic_h).x ∧ (check_fix_math r pic_w pic_h).x < pic_w ∧
    0 ≤ (check_fix_math r pic_w pic_h).y ∧ (check_fix_math r pic_w pic_h).y < pic_h ∧
    0 < (check_fix_math r pic_w pic_h).w ∧ 0 < (check_fix_math r pic_w pic_h).h ∧
    (check_fix_math r pic_w pic_h).x + (check_fix_math r pic_w pic_h).w ≤ pic_w ∧
    (check_fix_math r pic_w pic_h).y + (check_fix_math r pic_w pic_h).h ≤ pic_h :=
  region_invariant_math_aux r pic_w pic_h hx hy hw hh hpw hph

theorem check_fix_math_region_invariant_witness :
    RegionInvariant (check_fix_math { x := 700, y := 10, w := 0, h := 900 } 640 480) 640 480 ∧
    check_fix_math { x := 700, y := 10, w := 0, h := 900 } 640 480
      = { x := 0, y := 10, w := 640, h := 470 } :=
  ⟨check_fix_math_region_invariant { x := 700, y := 10, w := 0, h := 900 } 640 480
    (by decide) (by decide) (by decide) (by decide) (by decide) (by decide), by decide⟩

/-- The 32-bit `check_fix` agrees with the reading over the mathematical integers as long as the
sums and differences it forms stay in the range of `int`. -/
theorem check_fix_eq_math (r : Region) (pic_w pic_h : Int)
    (hx : 0 ≤ r.x) (hy : 0 ≤ r.y) (hw : 0 ≤ r.w) (hh : 0 ≤ r.h)
    (hxw : r.x + r.w ≤ INT_MAX) (hyh : r.y + r.h ≤ INT_MAX)
    (hpw : 0 < pic_w) (hph : 0 < pic_h) (hpw2 : pic_w ≤ INT_MAX) (hph2 : pic_h ≤ INT_MAX) :
    check_fix r pic_w pic_h = check_fix_math r pic_w pic_h := by
  unfold INT_MAX at *
  have e1 : ∀ n : Int, -2147483648 ≤ n → n ≤ 2147483647 → wrap32 n = n := fun n h1 h2 =>
    wrap32_of_isInt32 ⟨h1, h2⟩
  unfold check_fix check_fix_math check_fix_with
  simp only [id]
  have a1 : wrap32 (r.w + (if r.x ≥ pic_w then 0 else r.x))
      = r.w + (if r.x ≥ pic_w then 0 else r.x) := by
    apply e1 <;> split <;> omega
  have a2 : wrap32 (pic_w - (if r.x ≥ pic_w then 0 else r.x))
      = pic_w - (if r.x ≥ pic_w then 0 else r.x) := by
    apply e1 <;> split <;> omega
  have a3 : wrap32 (r.h + (if r.y ≥ pic_h then 0 else r.y))
      = r.h + (if r.y ≥ pic_h then 0 else r.y) := by
    apply e1 <;> split <;> omega
  have a4 : wrap32 (pic_h - (if r.y ≥ pic_h then 0 else r.y))
      = pic_h - (if r.y ≥ pic_h then 0 else r.y) := by
    apply e1 <;> split <;> omega
  rw [a1, a2, a3, a4]

/-- One axis of `check_fix`, 32-bit: clamping the clamped pair again changes nothing. -/
theorem axis_idempotent (x w pic : Int) (hp : IsInt32 pic) :
    let x1 := if x ≥ pic then 0 else x
    let w1 := if w = 0 ∨ wrap32 (w + x1) > pic then wrap32 (pic - x1) else w
    let x2 := if x1 ≥ pic then 0 else x1
    let w2 := if w1 = 0 ∨ wrap32 (w1 + x2) > pic then wrap32 (pic - x2) else w1
    x2 = x1 ∧ w2 = w1 := by
  intro x1 w1 x2 w2
  have hx : x2 = x1 := by
    show (if x1 ≥ pic then 0 else x1) = x1
    show (if (if x ≥ pic then 0 else x) ≥ pic then 0 else (if x ≥ pic then 0 else x))
      = (if x ≥ pic then 0 else x)
    split_ifs <;> omega
  refine ⟨hx, ?_⟩
  show (if w1 = 0 ∨ wrap32 (w1 + x2) > pic then wrap32 (pic - x2) else w1) = w1
  rw [hx]
  by_cases hc : w = 0 ∨ wrap32 (w + x1) > pic
  · have hw1 : w1 = wrap32 (pic - x1) := if_pos hc
    rw [hw1, wrap32_sub_add, wrap32_of_isInt32 hp]
    split_ifs <;> rfl
  · have hw1 : w1 = w := if_neg hc
    rw [hw1, if_neg hc]

/-- One axis of `check_fix`, mathematical integers: clamping again changes nothing. -/
theorem axis_idempotent_math (x w pic : Int) :
    let x1 := if x ≥ pic then 0 else x
    let w1 := if w = 0 ∨ w + x1 > pic then pic - x1 else w
    let x2 := if x1 ≥ pic then 0 else x1
    let w2 := if w1 = 0 ∨ w1 + x2 > pic then pic - x2 else w1
    x2 = x1 ∧ w2 = w1 := by
  intro x1 w1 x2 w2
  have hx : x2 = x1 := by
    show (if (if x ≥ pic then 0 else x) ≥ pic then 0 else (if x ≥ pic then 0 else x))
      = (if x ≥ pic then 0 else x)
    split_ifs <;> omega
  refine ⟨hx, ?_⟩
  show (if w1 = 0 ∨ w1 + x2 > pic then pic - x2 else w1) = w1
  rw [hx]
  by_cases hc : w = 0 ∨ w + x1 > pic
  · have hw1 : w1 = pic - x1 := if_pos hc
    rw [hw1]
    split_ifs <;> omega
  · have hw1 : w1 = w := if_neg hc
    rw [hw1, if_neg hc]

/-- C2. `check_fix` is idempotent: applied to the region it produced, with the same `pic_w` and
`pic_h`, it returns that region unchanged. This holds for every `x, y, w, h, pic_w, pic_h` over the
mathematical integers, and for the 32-bit function whenever `pic_w` and `pic_h` are `int` values. -/
theorem check_fix_idempotent (r : Region) (pic_w pic_h : Int) :
    check_fix_math (check_fix_math r pic_w pic_h) pic_w pic_h = check_fix_math r pic_w pic_h ∧
    (IsInt32 pic_w → IsInt32 pic_h →
      check_fix (check_fix r pic_w pic_h) pic_w pic_h = check_fix r pic_w pic_h) := by
  constructor
  · have hX := axis_idempotent_math r.x r.w pic_w
    have hY := axis_idempotent_math r.y r.h pic_h
    simp only at hX hY
    unfold check_fix_math check_fix_with
    simp only [id, Region.mk.injEq]
    exact ⟨hX.1, hY.1, hX.2, hY.2⟩
  · intro hpw hph
    have hX := axis_idempotent r.x r.w pic_w hpw
    have hY := axis_idempotent r.y r.h pic_h hph
    simp only at hX hY
    unfold check_fix check_fix_with
    simp only [Region.mk.injEq]
    exact ⟨hX.1, hY.1, hX.2, hY.2⟩

theorem check_fix_idempotent_witness :
    IsInt32 640 ∧ IsInt32 480 ∧
    check_fix (check_fix { x := 700, y := 10, w := 100, h := 900 } 640 480) 640 480
      = check_fix { x := 700, y := 10, w := 100, h := 900 } 640 480 :=
  ⟨by decide, by decide,
    (check_fix_idempotent { x := 700, y := 10, w := 100, h := 900 } 640 480).2
      (by decide) (by decide)⟩

/-- C9. For a request with `x ≥ pic_w`, `check_fix` resolves `x' = 0` and computes `w'` against
`x' = 0`: `w' = w` when `0 < w ≤ pic_w`, otherwise `w' = pic_w`; the same holds for `y`, `pic_h`
and `h`. The request `(700, 10, 100, 50)` on a 640x480 frame resolves to `(0, 10, 100, 50)`.
Requests are option values (`0 ≤ w, h ≤ INT_MAX`) and the frame size is an `int`. -/
theorem check_fix_resets_origin :
    (∀ (r : Region) (pic_w pic_h : Int), IsInt32 pic_w → 0 ≤ r.w → r.w ≤ INT_MAX →
      r.x ≥ pic_w →
      (check_fix r pic_w pic_h).x = 0 ∧
      (check_fix r pic_w pic_h).w = (if 0 < r.w ∧ r.w ≤ pic_w then r.w else pic_w)) ∧
    (∀ (r : Region) (pic_w pic_h : Int), IsInt32 pic_h → 0 ≤ r.h → r.h ≤ INT_MAX →
      r.y ≥ pic_h →
      (check_fix r pic_w pic_h).y = 0 ∧
      (check_fix r pic_w pic_h).h = (if 0 < r.h ∧ r.h ≤ pic_h then r.h else pic_h)) ∧
    check_fix { x := 700, y := 10, w := 100, h := 50 } 640 480
      = { x := 0, y := 10, w := 100, h := 50 } := by
  refine ⟨?_, ?_, by decide⟩
  · intro r pic_w pic_h hp hw0 hw1 hx
    have e1 : wrap32 (r.w + 0) = r.w := by
      rw [Int.add_zero]; exact wrap32_of_isInt32 ⟨by unfold INT_MIN; omega, hw1⟩
    have e2 : wrap32 (pic_w - 0) = pic_w := by
      rw [Int.sub_zero]; exact wrap32_of_isInt32 hp
    unfold check_fix check_fix_with
    simp only [if_pos hx, e1, e2, true_and]
    split_ifs <;> omega
  · intro r pic_w pic_h hp hh0 hh1 hy
    have e1 : wrap32 (r.h + 0) = r.h := by
      rw [Int.add_zero]; exact wrap32_of_isInt32 ⟨by unfold INT_MIN; omega, hh1⟩
    have e2 : wrap32 (pic_h - 0) = pic_h := by
      rw [Int.sub_zero]; exact wrap32_of_isInt32 hp
    unfold check_fix check_fix_with
    simp only [if_pos hy, e1, e2, true_and]
    split_ifs <;> omega

theorem check_fix_resets_origin_witness :
    (check_fix { x := 700, y := 10, w := 900, h := 50 } 640 480).x = 0 ∧
    (check_fix { x := 700, y := 10, w := 900, h := 50 } 640 480).w = 640 :=
  check_fix_resets_origin.1 { x := 700, y := 10, w := 900, h := 50 } 640 480
    (by decide) (by decide) (by decide) (by decide)

/-- C10, at the failing input. With `x = 1`, `w = INT_MAX` on a 640x480 frame the sum `*w + *x`
wraps to `INT_MIN`, the test `*w + *x > pic_w` fails and `w` is kept: the region produced is
`(1, 0, 2147483647, 480)`, whose right edge `x' + w' = 2147483648` lies beyond `pic_w = 640`. -/
theorem check_fix_overflow_escapes :
    IsInt32 1 ∧ IsInt32 2147483647 ∧
    wrap32 (2147483647 + 1) = INT_MIN ∧
    check_fix { x := 1, y := 0, w := 2147483647, h := 0 } 640 480
      = { x := 1, y := 0, w := 2147483647, h := 480 } ∧
    ¬ ((check_fix { x := 1, y := 0, w := 2147483647, h := 0 } 640 480).x
        + (check_fix { x := 1, y := 0, w := 2147483647, h := 0 } 640 480).w ≤ 640) ∧
    ¬ RegionInvariant (check_fix { x := 1, y := 0, w := 2147483647, h := 0 } 640 480) 640 480 ∧
    RegionInvariant (check_fix_math { x := 1, y := 0, w := 2147483647, h := 0 } 640 480)
      640 480 := by
  decide

/-- The region invariant does hold for the 32-bit `check_fix` on the requests whose sums
`x + w` and `y + h` do not leave the range of `int`. -/
theorem check_fix_region_invariant_of_no_overflow (r : Region) (pic_w pic_h : Int)
    (hx : 0 ≤ r.x) (hy : 0 ≤ r.y) (hw : 0 ≤ r.w) (hh : 0 ≤ r.h)
    (hxw : r.x + r.w ≤ INT_MAX) (hyh : r.y + r.h ≤ INT_MAX)
    (hpw : 0 < pic_w) (hph : 0 < pic_h) (hpw2 : pic_w ≤ INT_MAX) (hph2 : pic_h ≤ INT_MAX) :
    RegionInvariant (check_fix r pic_w pic_h) pic_w pic_h := by
  rw [check_fix_eq_math r pic_w pic_h hx hy hw hh hxw hyh hpw hph hpw2 hph2]
  exact region_invariant_math_aux r pic_w pic_h hx hy hw hh hpw hph

/-! ## Properties of `config_input` -/

/-- C8. A zero width and height mean "extend to the frame edge" and are no correction: for
`0 < pic_w, pic_h ≤ INT_MAX` and a request with `0 ≤ x < pic_w`, `0 ≤ y < pic_h`, `w = 0`, `h = 0`,
`config_input` resolves the region to `(x, y, pic_w - x, pic_h - y)`, logs nothing and keeps the
request; the default request on a 640x480 frame resolves to `(0, 0, 640, 480)` with no warning. -/
theorem config_input_zero_extends :
    (∀ (σ : Type) (s : OCRContext σ) (pic_w pic_h : Int),
      0 < pic_w → pic_w ≤ INT_MAX → 0 < pic_h → pic_h ≤ INT_MAX →
      0 ≤ s.x → s.x < pic_w → 0 ≤ s.y → s.y < pic_h → s.w = 0 → s.h = 0 →
      (config_input s pic_w pic_h).ctx.x_in = s.x ∧
      (config_input s pic_w pic_h).ctx.y_in = s.y ∧
      (config_input s pic_w pic_h).ctx.w_in = pic_w - s.x ∧
      (config_input s pic_w pic_h).ctx.h_in = pic_h - s.y ∧
      (config_input s pic_w pic_h).log = [] ∧
      warned (config_input s pic_w pic_h) = false ∧
      (config_input s pic_w pic_h).ret = 0) ∧
    ((config_input default_ctx 640 480).ctx.x_in = 0 ∧
      (config_input default_ctx 640 480).ctx.y_in = 0 ∧
      (config_input default_ctx 640 480).ctx.w_in = 640 ∧
      (config_input default_ctx 640 480).ctx.h_in = 480 ∧
      (config_input default_ctx 640 480).log = []) := by
  refine ⟨?_, by decide⟩
  intro σ s pic_w pic_h hpw hpw2 hph hph2 hx0 hx1 hy0 hy1 hw hh
  unfold INT_MAX at hpw2 hph2
  have ex : ¬ (s.x ≥ pic_w) := by omega
  have ey : ¬ (s.y ≥ pic_h) := by omega
  have e1 : wrap32 (pic_w - s.x) = pic_w - s.x :=
    wrap32_of_isInt32 ⟨by unfold INT_MIN; omega, by unfold INT_MAX; omega⟩
  have e2 : wrap32 (pic_h - s.y) = pic_h - s.y :=
    wrap32_of_isInt32 ⟨by unfold INT_MIN; omega, by unfold INT_MAX; omega⟩
  simp [config_input, warned, check_fix, check_fix_with, hw, hh, ex, ey, e1, e2]

theorem config_input_zero_extends_witness :
    (config_input { default_ctx with x := 40, y := 30 } 640 480).ctx.w_in = 640 - 40 ∧
    (config_input { default_ctx with x := 40, y := 30 } 640 480).ctx.h_in = 480 - 30 ∧
    (config_input { default_ctx with x := 40, y := 30 } 640 480).log = [] :=
  have h := config_input_zero_extends.1 Unit { default_ctx with x := 40, y := 30 } 640 480
    (by decide) (by decide) (by decide) (by decide) (by decide) (by decide) (by decide)
    (by decide) rfl rfl
  ⟨h.2.2.1, h.2.2.2.1, h.2.2.2.2.1⟩

/-- C3, as stated, fails: for the default request `(0, 0, 0, 0)` on a 640x480 frame the resolved
region `(0, 0, 640, 480)` differs from the request in `w` and in `h`, and nothing is logged. -/
theorem config_input_differs_without_warning :
    (config_input default_ctx 640 480).ctx.w_in ≠ (config_input default_ctx 640 480).ctx.w ∧
    (config_input default_ctx 640 480).ctx.h_in ≠ (config_input default_ctx 640 480).ctx.h ∧
    (config_input default_ctx 640 480).ctx.w_in = 640 ∧
    (config_input default_ctx 640 480).ctx.w = 0 ∧
    (config_input default_ctx 640 480).log = [] ∧
    warned (config_input default_ctx 640 480) = false := by
  decide

/-- C3, amended. `config_input` keeps the request, and it logs the "subregion changed" warning,
naming the resolved values, exactly when the resolved region differs from the request in `x`, in
`y`, in `w` for a requested `w ≠ 0`, or in `h` for a requested `h ≠ 0`; a requested width or height
of zero is resolved without a warning. In every case it returns 0. -/
theorem config_input_warns_iff (σ : Type) (s : OCRContext σ) (pic_w pic_h : Int) :
    (config_input s pic_w pic_h).ret = 0 ∧
    (config_input s pic_w pic_h).ctx.x = s.x ∧ (config_input s pic_w pic_h).ctx.y = s.y ∧
    (config_input s pic_w pic_h).ctx.w = s.w ∧ (config_input s pic_w pic_h).ctx.h = s.h ∧
    (warned (config_input s pic_w pic_h) = true ↔
      ((config_input s pic_w pic_h).ctx.x_in ≠ s.x ∨ (config_input s pic_w pic_h).ctx.y_in ≠ s.y ∨
        (s.w ≠ 0 ∧ (config_input s pic_w pic_h).ctx.w_in ≠ s.w) ∨
        (s.h ≠ 0 ∧ (config_input s pic_w pic_h).ctx.h_in ≠ s.h))) ∧
    (warned (config_input s pic_w pic_h) = true →
      (config_input s pic_w pic_h).log =
        [{ level := AV_LOG_WARNING,
           msg := subregion_changed_msg (config_input s pic_w pic_h).ctx.x_in
             (config_input s pic_w pic_h).ctx.y_in (config_input s pic_w pic_h).ctx.w_in
             (config_input s pic_w pic_h).ctx.h_in }]) ∧
    (warned (config_input s pic_w pic_h) = false → (config_input s pic_w pic_h).log = []) := by
  refine ⟨rfl, rfl, rfl, rfl, rfl, ?_, ?_, ?_⟩
  · unfold warned config_input
    simp only
    split_ifs with hc
    · simp [hc]
    · simp [hc]
  · unfold warned config_input
    simp only
    split_ifs with hc
    · intro _; rfl
    · simp
  · unfold warned config_input
    simp only
    split_ifs with hc
    · simp
    · intro _; rfl

theorem config_input_warns_iff_witness :
    warned (config_input { default_ctx with x := 700, y := 10, w := 100, h := 50 } 640 480) = true ∧
    (config_input { default_ctx with x := 700, y := 10, w := 100, h := 50 } 640 480).log =
      [{ level := AV_LOG_WARNING,
         msg := "config error, subregion changed to x=0, y=10, w=100, h=50\n" }] :=
  ⟨by decide,
    (config_input_warns_iff Unit { default_ctx with x := 700, y := 10, w := 100, h := 50 }
      640 480).2.2.2.2.2.2.1 (by decide)⟩

/-! ## Facts on the metadata store -/

theorem get_nil (key : String) : av_dict_get [] key = none := rfl

theorem get_cons (e : String × String) (m : AVDictionary) (key : String) :
    av_dict_get (e :: m) key = if e.1 = key then some e.2 else av_dict_get m key := by
  unfold av_dict_get
  by_cases h : e.1 = key
  · simp [List.find?_cons, h]
  · simp [List.find?_cons, h]

theorem get_erase_self (m : AVDictionary) (key : String) :
    av_dict_get (m.filter (fun e => !(e.1 == key))) key = none := by
  induction m with
  | nil => rfl
  | cons e m ih =>
    by_cases h : e.1 = key
    · simpa [List.filter_cons, h] using ih
    · have hk : (!(e.1 == key)) = true := by simp [h]
      rw [List.filter_cons, if_pos hk, get_cons, if_neg h]; exact ih

theorem get_erase_other (m : AVDictionary) (key key2 : String) (hne : key2 ≠ key) :
    av_dict_get (m.filter (fun e => !(e.1 == key))) key2 = av_dict_get m key2 := by
  induction m with
  | nil => rfl
  | cons e m ih =>
    by_cases h : e.1 = key
    · have h2 : ¬ e.1 = key2 := fun h3 => hne (h3.symm.trans h)
      rw [get_cons, if_neg h2]
      simpa [List.filter_cons, h] using ih
    · have hk : (!(e.1 == key)) = true := by simp [h]
      rw [List.filter_cons, if_pos hk, get_cons, get_cons, ih]

theorem get_append_single (m : AVDictionary) (k v key : String) :
    av_dict_get (m ++ [(k, v)]) key =
      match av_dict_get m key with
      | some old => some old
      | none => if k = key then some v else none := by
  induction m with
  | nil => simp [get_cons, get_nil]
  | cons e m ih =>
    rw [List.cons_append, get_cons, get_cons]
    by_cases h : e.1 = key
    · simp [h]
    · simp only [if_neg h]; exact ih

theorem av_dict_get_set_other (m : AVDictionary) (key key2 : String) (v : Option String)
    (flags : Nat) (hne : key2 ≠ key) :
    av_dict_get (av_dict_set m key v flags) key2 = av_dict_get m key2 := by
  unfold av_dict_set
  cases v with
  | none => exact get_erase_other m key key2 hne
  | some v =>
    simp only
    rw [get_append_single, get_erase_other m key key2 hne]
    cases av_dict_get m key2 with
    | none => simp [Ne.symm hne]
    | some old => rfl

theorem av_dict_get_set_null (m : AVDictionary) (key : String) (flags : Nat) :
    av_dict_get (av_dict_set m key none flags) key = none :=
  get_erase_self m key

theorem av_dict_get_set_overwrite (m : AVDictionary) (key v : String) :
    av_dict_get (av_dict_set m key (some v) 0) key = some v := by
  unfold av_dict_set
  simp only
  rw [get_append_single, get_erase_self]
  simp [AV_DICT_APPEND]

theorem av_dict_get_set_append (m : AVDictionary) (key v : String) :
    av_dict_get (av_dict_set m key (some v) AV_DICT_APPEND) key =
      some ((av_dict_get m key).getD "" ++ v) := by
  unfold av_dict_set
  simp only
  rw [get_append_single, get_erase_self]
  cases av_dict_get m key with
  | none => simp [AV_DICT_APPEND]
  | some old => simp [AV_DICT_APPEND]

theorem filter_set_of_not_keep (p : String × String → Bool) (m : AVDictionary) (key : String)
    (v : Option String) (flags : Nat) (hp : ∀ val, p (key, val) = false) :
    (av_dict_set m key v flags).filter p = m.filter p := by
  have h1 : (m.filter (fun e => !(e.1 == key))).filter p = m.filter p := by
    induction m with
    | nil => rfl
    | cons e m ih =>
      by_cases h : e.1 = key
      · have hpe : p e = false := by
          have := hp e.2
          rw [← h] at this
          exact this
        simp [List.filter_cons, h, hpe, ih]
      · have hk : (!(e.1 == key)) = true := by simp [h]
        rw [List.filter_cons, if_pos hk, List.filter_cons, List.filter_cons, ih]
  unfold av_dict_set
  cases v with
  | none => exact h1
  | some v =>
    simp only
    rw [List.filter_append, h1]
    simp [List.filter_cons, hp]

/-! ## The confidence loop -/

/-- An array holding the sentinel splits at its first sentinel. -/
theorem split_at_sentinel (confs : List Int) (h : (-1 : Int) ∈ confs) :
    ∃ cs rest, confs = cs ++ (-1 : Int) :: rest ∧ (-1 : Int) ∉ cs := by
  induction confs with
  | nil => exact absurd h (List.not_mem_nil _)
  | cons c confs ih =>
    by_cases hc : c = -1
    · exact ⟨[], confs, by simp [hc], List.not_mem_nil _⟩
    · have h2 : (-1 : Int) ∈ confs := by
        rcases List.mem_cons.mp h with h3 | h3
        · exact absurd h3.symm hc
        · exact h3
      obtain ⟨cs, rest, e, hn⟩ := ih h2
      refine ⟨c :: cs, rest, by simp [e], ?_⟩
      intro hm
      rcases List.mem_cons.mp hm with h3 | h3
      · exact hc h3.symm
      · exact hn h3

/-- The loop over `cs` followed by the sentinel: it ends, the value under `lavfi.ocr.confidence`
is the prior value followed by the text of `cs`, and no other entry is touched. -/
theorem confs_loop_run (cs rest : List Int) (hs : (-1 : Int) ∉ cs) (m : AVDictionary) :
    ∃ m1, confs_loop (cs ++ (-1 : Int) :: rest) m = some m1 ∧
      av_dict_get m1 "lavfi.ocr.confidence" =
        (if cs = [] then av_dict_get m "lavfi.ocr.confidence"
         else some ((av_dict_get m "lavfi.ocr.confidence").getD "" ++ confidence_text cs)) ∧
      (∀ key, key ≠ "lavfi.ocr.confidence" → av_dict_get m1 key = av_dict_get m key) ∧
      (∀ p : String × String → Bool, (∀ val, p ("lavfi.ocr.confidence", val) = false) →
        m1.filter p = m.filter p) := by
  induction cs generalizing m with
  | nil =>
    refine ⟨m, ?_, ?_, fun _ _ => rfl, fun _ _ => rfl⟩
    · simp [confs_loop]
    · simp
  | cons c cs ih =>
    have hc : c ≠ -1 := fun h => hs (by simp [h])
    have hcs : (-1 : Int) ∉ cs := fun h => hs (List.mem_cons_of_mem _ h)
    obtain ⟨m1, hrun, hget, hother, hfilter⟩ :=
      ih hcs (av_dict_set m "lavfi.ocr.confidence" (some (fmt_d c ++ " ")) AV_DICT_APPEND)
    refine ⟨m1, ?_, ?_, ?_, ?_⟩
    · rw [List.cons_append, confs_loop, if_neg hc]
      exact hrun
    · rw [hget, av_dict_get_set_append, if_neg (List.cons_ne_nil c cs)]
      by_cases hnil : cs = []
      · subst hnil
        simp [confidence_text]
      · rw [if_neg hnil]
        simp [confidence_text, String.append_assoc]
    · intro key hkey
      rw [hother key hkey, av_dict_get_set_other _ _ _ _ _ hkey]
    · intro p hp
      rw [hfilter p hp, filter_set_of_not_keep p m _ _ _ hp]

/-- What `filter_frame` does on an engine result whose confidence array is `cs`, the sentinel,
and anything after it. -/
theorem filter_frame_run {σ : Type} (api : TessBaseAPI σ) (s : OCRContext σ) (frame : AVFrame)
    (cs rest : List Int) (hconfs : engine_confs api s frame = cs ++ (-1 : Int) :: rest)
    (hs : (-1 : Int) ∉ cs) :
    ∃ res, filter_frame api s frame = some res ∧
      res.out.data = frame.data ∧ res.out.linesize = frame.linesize ∧
      res.ctx = { s with tess := res.ctx.tess } ∧
      av_dict_get res.out.metadata "lavfi.ocr.text" = engine_text api s frame ∧
      av_dict_get res.out.metadata "lavfi.ocr.confidence" =
        (if cs = [] then av_dict_get frame.metadata "lavfi.ocr.confidence"
         else some ((av_dict_get frame.metadata "lavfi.ocr.confidence").getD ""
           ++ confidence_text cs)) ∧
      (∀ key, key ≠ "lavfi.ocr.text" → key ≠ "lavfi.ocr.confidence" →
        av_dict_get res.out.metadata key = av_dict_get frame.metadata key) ∧
      other_entries res.out.metadata = other_entries frame.metadata := by
  have hne : ("lavfi.ocr.confidence" : String) ≠ "lavfi.ocr.text" := by decide
  obtain ⟨m1, hrun, hget, hother, hfilter⟩ := confs_loop_run cs rest hs
    (av_dict_set frame.metadata "lavfi.ocr.text" (engine_text api s frame) 0)
  unfold engine_confs at hconfs
  unfold engine_text at hrun
  refine ⟨FilterResult.mk
      { s with tess := (api.Rect s.tess (frame.data.headD []) 1
          (frame.linesize.headD 0) s.x_in s.y_in s.w_in s.h_in).2 }
      { frame with metadata := m1 }, ?_, rfl, rfl, rfl, ?_, ?_, ?_, ?_⟩
  · unfold filter_frame
    simp only [hconfs, hrun]
  · show av_dict_get m1 "lavfi.ocr.text" = _
    rw [hother _ (Ne.symm hne)]
    cases ht : engine_text api s frame with
    | none => exact av_dict_get_set_null _ _ _
    | some t => exact av_dict_get_set_overwrite _ _ _
  · show av_dict_get m1 "lavfi.ocr.confidence" = _
    rw [hget, av_dict_get_set_other _ _ _ _ _ hne]
  · intro key h1 h2
    show av_dict_get m1 key = _
    rw [hother key h2, av_dict_get_set_other _ _ _ _ _ h1]
  · show other_entries m1 = _
    unfold other_entries
    rw [hfilter _ (fun val => by simp), filter_set_of_not_keep _ _ _ _ _ (fun val => by simp)]

/-! ## The decimal text of a confidence holds no space -/

theorem ite_ne_of_ne {α : Type} (c : Prop) [Decidable c] (a b x : α) (ha : a ≠ x)
    (hb : b ≠ x) : (if c then a else b) ≠ x := by
  split
  · exact ha
  · exact hb

theorem digitChar_ne_space (d : Nat) : Nat.digitChar d ≠ ' ' := by
  unfold Nat.digitChar
  repeat (refine ite_ne_of_ne _ _ _ _ (by decide) ?_)
  decide

theorem digitChar_ne_minus (d : Nat) : Nat.digitChar d ≠ '-' := by
  unfold Nat.digitChar
  repeat (refine ite_ne_of_ne _ _ _ _ (by decide) ?_)
  decide

/-- A character that is no digit character does not enter the digits of a number. -/
theorem toDigitsCore_avoids (x : Char) (hx : ∀ d, Nat.digitChar d ≠ x) (fuel n : Nat)
    (ds : List Char) (h : x ∉ ds) : x ∉ Nat.toDigitsCore 10 fuel n ds := by
  induction fuel generalizing n ds with
  | zero => simpa [Nat.toDigitsCore] using h
  | succ fuel ih =>
    have hd : x ∉ Nat.digitChar (n % 10) :: ds := by
      intro hm
      rcases List.mem_cons.mp hm with h1 | h1
      · exact hx _ h1.symm
      · exact h h1
    unfold Nat.toDigitsCore
    simp only
    split
    · exact hd
    · exact ih _ _ hd

theorem fmt_d_no_space (c : Int) : ' ' ∉ (fmt_d c).data := by
  have hnat : ∀ n : Nat, ' ' ∉ (Nat.repr n).data := fun n =>
    toDigitsCore_avoids ' ' digitChar_ne_space (n + 1) n [] (List.not_mem_nil _)
  cases c with
  | ofNat n => exact hnat n
  | negSucc n =>
    show ' ' ∉ ("-" ++ Nat.repr (n + 1)).data
    rw [String.data_append]
    intro hm
    rcases List.mem_append.mp hm with h1 | h1
    · revert h1; decide
    · exact hnat _ h1

theorem toDigits_eq_one (m : Nat) (h : Nat.toDigits 10 m = ['1']) : m = 1 := by
  by_cases hm : m < 10
  · have e : Nat.toDigits 10 m = [Nat.digitChar m] := by
      unfold Nat.toDigits Nat.toDigitsCore
      simp only
      rw [if_pos (by omega), Nat.mod_eq_of_lt hm]
    rw [e] at h
    interval_cases m <;> first | rfl | (exact absurd h (by decide))
  · exfalso
    obtain ⟨k, rfl⟩ : ∃ k, m = k + 1 := ⟨m - 1, by omega⟩
    have e : (Nat.toDigits 10 (k + 1)).length ≥ 2 := by
      unfold Nat.toDigits
      rw [Nat.toDigitsCore]
      rw [if_neg (by omega)]
      rw [Nat.toDigitsCore]
      split
      · simp
      · rw [Nat.toDigitsCore_lens_eq, Nat.toDigitsCore_lens_eq]
        omega
    rw [h] at e
    simp at e

/-- Only the sentinel is written as the sentinel is. -/
theorem fmt_d_ne_sentinel (c : Int) (hc : c ≠ -1) : (fmt_d c).data ≠ (fmt_d (-1)).data := by
  have e1 : (fmt_d (-1)).data = ['-', '1'] := by decide
  rw [e1]
  cases c with
  | ofNat n =>
    intro h
    have hno : '-' ∉ (Nat.repr n).data :=
      toDigitsCore_avoids '-' digitChar_ne_minus (n + 1) n [] (List.not_mem_nil _)
    apply hno
    show '-' ∈ (fmt_d (Int.ofNat n)).data
    rw [h]
    simp
  | negSucc n =>
    intro h
    have h2 : ("-" ++ Nat.repr (n + 1)).data = ['-', '1'] := h
    rw [String.data_append] at h2
    have h3 : Nat.toDigits 10 (n + 1) = ['1'] := by
      have : ['-'] ++ Nat.toDigits 10 (n + 1) = ['-'] ++ ['1'] := h2
      exact List.append_cancel_left this
    have h4 := toDigits_eq_one _ h3
    apply hc
    have : n = 0 := by omega
    subst this
    rfl

theorem space_fields_field (f rest : List Char) (h : ' ' ∉ f) :
    space_fields (f ++ ' ' :: rest) = f :: space_fields rest := by
  induction f with
  | nil => simp [space_fields]
  | cons ch f ih =>
    have hch : ch ≠ ' ' := fun e => h (by simp [e])
    have hf : ' ' ∉ f := fun e => h (List.mem_cons_of_mem _ e)
    rw [List.cons_append, space_fields, if_neg hch, ih hf]

/-- The text written for `cs` has one field per confidence: the decimal text of each, in order. -/
theorem space_fields_confidence_text (cs : List Int) :
    space_fields (confidence_text cs).data = cs.map (fun c => (fmt_d c).data) := by
  induction cs with
  | nil => rfl
  | cons c cs ih =>
    have e : (confidence_text (c :: cs)).data
        = (fmt_d c).data ++ ' ' :: (confidence_text cs).data := by
      simp [confidence_text, String.data_append]
    rw [e, space_fields_field _ _ (fmt_d_no_space c), ih, List.map_cons]

/-! ## Properties of `filter_frame` -/

/-- C4. For a frame whose metadata does not hold `lavfi.ocr.confidence` and an engine confidence
array `c_0, ..., c_(n-1), -1` with `n ≥ 1` and no `c_i = -1`, `filter_frame` returns and the value
under `lavfi.ocr.confidence` is the decimal text of each `c_i`, in order, each followed by one
space: its space-closed fields are the `n` decimal texts, in order, and the text of the sentinel
is none of them. For `[91, 88, -1]` the value is `"91 88 "`. -/
theorem filter_frame_confidence_value :
    (∀ (σ : Type) (api : TessBaseAPI σ) (s : OCRContext σ) (frame : AVFrame) (cs : List Int),
      av_dict_get frame.metadata "lavfi.ocr.confidence" = none →
      engine_confs api s frame = cs ++ [-1] → cs ≠ [] → (-1 : Int) ∉ cs →
      ∃ res, filter_frame api s frame = some res ∧
        av_dict_get res.out.metadata "lavfi.ocr.confidence" = some (confidence_text cs) ∧
        ∀ value, av_dict_get res.out.metadata "lavfi.ocr.confidence" = some value →
          space_fields value.data = cs.map (fun c => (fmt_d c).data) ∧
          (space_fields value.data).length = cs.length ∧
          (fmt_d (-1)).data ∉ space_fields value.data) ∧
    out_value (filter_frame (scripted (some "HELLO") [91, 88, -1]) default_ctx blank_frame)
      "lavfi.ocr.confidence" = some (some "91 88 ") ∧
    out_value (filter_frame (scripted (some "HELLO") [91, 88, -1]) default_ctx blank_frame)
      "lavfi.ocr.text" = some (some "HELLO") := by
  refine ⟨?_, by decide, by decide⟩
  intro σ api s frame cs hprior hconfs hne hs
  obtain ⟨res, hres, _, _, _, _, hget, _, _⟩ := filter_frame_run api s frame cs [] hconfs hs
  rw [if_neg hne, hprior] at hget
  have hval : av_dict_get res.out.metadata "lavfi.ocr.confidence" = some (confidence_text cs) := by
    rw [hget]; simp
  refine ⟨res, hres, hval, ?_⟩
  intro value hv
  rw [hval] at hv
  cases hv
  rw [space_fields_confidence_text]
  refine ⟨rfl, List.length_map _ _, ?_⟩
  intro hm
  obtain ⟨c, hc, he⟩ := List.mem_map.mp hm
  exact fmt_d_ne_sentinel c (fun e => hs (e ▸ hc)) he

theorem filter_frame_confidence_value_witness :
    ∃ res, filter_frame (scripted (some "HELLO") [91, 88, -1]) default_ctx blank_frame = some res ∧
      av_dict_get res.out.metadata "lavfi.ocr.confidence" = some "91 88 " :=
  have h := filter_frame_confidence_value.1 Unit (scripted (some "HELLO") [91, 88, -1])
    default_ctx blank_frame [91, 88] (by decide) (by decide) (by decide) (by decide)
  h.elim (fun res hr => ⟨res, hr.1, hr.2.1⟩)

/-- C5, as stated, fails: when the engine returns no text (`NULL`) `filter_frame` still returns,
and the key `lavfi.ocr.text` is absent from the frame it passes on, both for a frame without
metadata and for a frame that held an old text, whose entry is deleted. -/
theorem filter_frame_null_text_absent :
    out_value (filter_frame (scripted none [-1]) default_ctx blank_frame) "lavfi.ocr.text"
      = some none ∧
    out_value (filter_frame (scripted none [-1]) default_ctx blank_frame) "lavfi.ocr.text"
      ≠ some (some "") ∧
    av_dict_get tagged_frame.metadata "lavfi.ocr.text" = some "OLD" ∧
    out_value (filter_frame (scripted none [-1]) default_ctx tagged_frame) "lavfi.ocr.text"
      = some none := by
  decide

/-- C5, amended. Whatever the frame's prior metadata, `filter_frame` returns on every engine
result whose confidence array holds the sentinel, and after it the key `lavfi.ocr.text` holds
exactly what the engine returned: when the engine returns a text (possibly empty) the key is
present with that text verbatim, replacing any prior value; when the engine returns no text
(`NULL`) the key is absent. -/
theorem filter_frame_text_value (σ : Type) (api : TessBaseAPI σ) (s : OCRContext σ)
    (frame : AVFrame) (hsent : (-1 : Int) ∈ engine_confs api s frame) :
    ∃ res, filter_frame api s frame = some res ∧
      av_dict_get res.out.metadata "lavfi.ocr.text" = engine_text api s frame ∧
      (∀ t, engine_text api s frame = some t →
        av_dict_get res.out.metadata "lavfi.ocr.text" = some t) ∧
      (engine_text api s frame = none →
        av_dict_get res.out.metadata "lavfi.ocr.text" = none) := by
  obtain ⟨cs, rest, hconfs, hs⟩ := split_at_sentinel _ hsent
  obtain ⟨res, hres, _, _, _, htext, _, _, _⟩ := filter_frame_run api s frame cs rest hconfs hs
  exact ⟨res, hres, htext, fun t ht => by rw [htext, ht], fun ht => by rw [htext, ht]⟩

theorem filter_frame_text_value_witness :
    (-1 : Int) ∈ engine_confs (scripted (some "") [55, -1]) default_ctx tagged_frame ∧
    ∃ res, filter_frame (scripted (some "") [55, -1]) default_ctx tagged_frame = some res ∧
      av_dict_get res.out.metadata "lavfi.ocr.text" = some "" :=
  ⟨by decide,
    (filter_frame_text_value Unit (scripted (some "") [55, -1]) default_ctx tagged_frame
      (by decide)).elim (fun res hr => ⟨res, hr.1, hr.2.2.1 "" rfl⟩)⟩

/-- C6, at the failing input. A frame arrives holding `"70 "` under `lavfi.ocr.confidence`, as
left by a frame recognised with `[70, -1]`; the engine returns `[80, -1]` for it. The value after
`filter_frame` is `"70 80 "`, not `"80 "`; for the same engine result on a frame without the key
it is `"80 "`: the value depends on what the key held before. -/
theorem filter_frame_confidence_carries_over :
    out_value (filter_frame (scripted (some "A") [70, -1]) default_ctx blank_frame)
      "lavfi.ocr.confidence" = some (some "70 ") ∧
    out_value (filter_frame (scripted (some "B") [80, -1]) default_ctx
      { blank_frame with metadata := [("lavfi.ocr.text", "A"), ("lavfi.ocr.confidence", "70 ")] })
      "lavfi.ocr.confidence" = some (some "70 80 ") ∧
    out_value (filter_frame (scripted (some "B") [80, -1]) default_ctx blank_frame)
      "lavfi.ocr.confidence" = some (some "80 ") ∧
    (filter_frame (scripted (some "A") [70, -1]) default_ctx blank_frame).map
      (fun r => r.out.metadata) = some [("lavfi.ocr.text", "A"), ("lavfi.ocr.confidence", "70 ")] ∧
    out_value (filter_frame (scripted (some "B") [80, -1]) default_ctx
      { blank_frame with metadata := [("lavfi.ocr.text", "A"), ("lavfi.ocr.confidence", "70 ")] })
      "lavfi.ocr.text" = some (some "B") := by
  decide

/-- The confidences of a call are appended to the value the key held when the frame arrived. -/
theorem filter_frame_confidence_appends {σ : Type} (api : TessBaseAPI σ) (s : OCRContext σ)
    (frame : AVFrame) (cs : List Int) (prior : String)
    (hprior : av_dict_get frame.metadata "lavfi.ocr.confidence" = some prior)
    (hconfs : engine_confs api s frame = cs ++ [-1]) (hs : (-1 : Int) ∉ cs) :
    ∃ res, filter_frame api s frame = some res ∧
      av_dict_get res.out.metadata "lavfi.ocr.confidence" = some (prior ++ confidence_text cs) := by
  obtain ⟨res, hres, _, _, _, _, hget, _, _⟩ := filter_frame_run api s frame cs [] hconfs hs
  refine ⟨res, hres, ?_⟩
  rw [hget, hprior]
  by_cases hnil : cs = []
  · subst hnil; simp [confidence_text]
  · rw [if_neg hnil]; rfl

/-- C7. On every frame and every engine result (a text or none, and a confidence array holding
the sentinel) `filter_frame` returns, and the frame it passes to the next stage has the plane data
and line sizes of the input frame; the metadata entries under keys other than `lavfi.ocr.text` and
`lavfi.ocr.confidence` are the same entries in the same order; and the option strings, the
requested region `x, y, w, h` and the resolved region `x_in, y_in, w_in, h_in` of the filter are
unchanged. -/
theorem filter_frame_frame_effect (σ : Type) (api : TessBaseAPI σ) (s : OCRContext σ)
    (frame : AVFrame) (hsent : (-1 : Int) ∈ engine_confs api s frame) :
    ∃ res, filter_frame api s frame = some res ∧
      res.out.data = frame.data ∧ res.out.linesize = frame.linesize ∧
      other_entries res.out.metadata = other_entries frame.metadata ∧
      (∀ key, key ≠ "lavfi.ocr.text" → key ≠ "lavfi.ocr.confidence" →
        av_dict_get res.out.metadata key = av_dict_get frame.metadata key) ∧
      res.ctx.x = s.x ∧ res.ctx.y = s.y ∧ res.ctx.w = s.w ∧ res.ctx.h = s.h ∧
      res.ctx.x_in = s.x_in ∧ res.ctx.y_in = s.y_in ∧
      res.ctx.w_in = s.w_in ∧ res.ctx.h_in = s.h_in ∧
      res.ctx.datapath = s.datapath ∧ res.ctx.language = s.language ∧
      res.ctx.whitelist = s.whitelist ∧ res.ctx.blacklist = s.blacklist := by
  obtain ⟨cs, rest, hconfs, hs⟩ := split_at_sentinel _ hsent
  obtain ⟨res, hres, hdata, hline, hctx, _, _, hother, hentries⟩ :=
    filter_frame_run api s frame cs rest hconfs hs
  refine ⟨res, hres, hdata, hline, hentries, hother, ?_⟩
  rw [hctx]
  exact ⟨rfl, rfl, rfl, rfl, rfl, rfl, rfl, rfl, rfl, rfl, rfl, rfl⟩

theorem filter_frame_frame_effect_witness :
    (-1 : Int) ∈ engine_confs (scripted (some "HELLO") [91, 88, -1]) default_ctx tagged_frame ∧
    ∃ res, filter_frame (scripted (some "HELLO") [91, 88, -1]) default_ctx tagged_frame
        = some res ∧
      res.out.data = [[16, 16, 235, 235]] ∧ res.out.linesize = [2] ∧
      other_entries res.out.metadata = [("title", "clip")] ∧
      res.ctx.w_in = 0 :=
  ⟨by decide,
    (filter_frame_frame_effect Unit (scripted (some "HELLO") [91, 88, -1]) default_ctx
      tagged_frame (by decide)).elim
      (fun res hr => ⟨res, hr.1, hr.2.1, hr.2.2.1, hr.2.2.2.1, hr.2.2.2.2.2.2.2.2.2.2.2.1⟩)⟩

end VfOcr
